import Mathlib

/-!
Verification development for the Versailles visit-planning assistant
(repository `hackathoh-versailles`).

The first part embeds the Vue front-end code that is present in the sources
(`UserInput.vue`, `ChatView.vue`, `MapDisplay.vue`).  The second part models
the query orchestration and retrieval-fusion engine; its Python implementation
is not part of the sources (only its documentation is), so those definitions
are modelled from the specification and carry a doc comment saying so.
-/

namespace Versailles

/-! ## UserInput.vue: `sendMessage` -/

/-- Whitespace characters recognised by JavaScript `String.prototype.trim`
(space, tab, line feed, carriage return, vertical tab, form feed, and the
no-break space); strings are modelled as lists of characters. -/
def jsWhitespace (c : Char) : Bool :=
  c = ' ' || c = '\t' || c = '\n' || c = '\r' || c = '\x0b' || c = '\x0c' || c = ' '

/-- JavaScript `String.prototype.trim`: drop leading and trailing whitespace. -/
def jsTrim (l : List Char) : List Char :=
  ((l.dropWhile jsWhitespace).reverse.dropWhile jsWhitespace).reverse

/-- One call of `sendMessage` in `UserInput.vue`: if the trimmed input is
non-empty it emits the (untrimmed) input as the `send-message` payload and
clears the field, otherwise it does nothing.  The result is the optional
emitted payload together with the new value of the input field. -/
def sendMessage (newMessage : List Char) : Option (List Char) × List Char :=
  if jsTrim newMessage ≠ [] then (some newMessage, []) else (none, newMessage)

theorem dropWhile_all_iff (p : Char → Bool) (l : List Char) :
    (∀ x ∈ l.dropWhile p, p x = true) ↔ ∀ x ∈ l, p x = true := by
  constructor
  · intro h x hx
    have hsplit : l.takeWhile p ++ l.dropWhile p = l := List.takeWhile_append_dropWhile p l
    rw [← hsplit] at hx
    rcases List.mem_append.1 hx with h1 | h2
    · exact List.mem_takeWhile_imp h1
    · exact h x h2
  · intro h x hx
    exact h x (List.Sublist.mem hx (List.dropWhile_sublist p))

theorem jsTrim_eq_nil_iff (l : List Char) :
    jsTrim l = [] ↔ ∀ x ∈ l, jsWhitespace x = true := by
  unfold jsTrim
  rw [List.reverse_eq_nil_iff, List.dropWhile_eq_nil_iff]
  constructor
  · intro h
    rw [← dropWhile_all_iff jsWhitespace l]
    intro x hx
    exact h x (by simpa using hx)
  · intro h x hx
    have hx' : x ∈ l.dropWhile jsWhitespace := by simpa using hx
    exact h x (List.Sublist.mem hx' (List.dropWhile_sublist jsWhitespace))

/-- C8: `sendMessage` emits a `send-message` event iff the input contains a
non-whitespace character; when it emits, the payload is the original untrimmed
string and the field is cleared, and on whitespace-only input nothing is
emitted and the field is unchanged. -/
theorem sendMessage_spec (s : List Char) :
    ((sendMessage s).1 ≠ none ↔ ∃ c ∈ s, jsWhitespace c = false) ∧
    ((∃ c ∈ s, jsWhitespace c = false) → sendMessage s = (some s, [])) ∧
    ((∀ c ∈ s, jsWhitespace c = true) → sendMessage s = (none, s)) := by
  have key : jsTrim s ≠ [] ↔ ∃ c ∈ s, jsWhitespace c = false := by
    rw [Ne, jsTrim_eq_nil_iff]
    push_neg
    constructor
    · rintro ⟨c, hc, hcw⟩
      exact ⟨c, hc, by simpa using hcw⟩
    · rintro ⟨c, hc, hcw⟩
      exact ⟨c, hc, by simpa using hcw⟩
  refine ⟨?_, ?_, ?_⟩
  · unfold sendMessage
    by_cases h : jsTrim s ≠ []
    · simp only [if_pos h]
      simpa using key.1 h
    · simp only [if_neg h]
      simp only [ne_eq, not_not] at h
      constructor
      · intro hx
        exact absurd rfl hx
      · intro hx
        exact absurd (key.2 hx) (by simpa using h)
  · intro hex
    unfold sendMessage
    rw [if_pos (key.2 hex)]
  · intro hall
    unfold sendMessage
    rw [if_neg]
    simp only [ne_eq, not_not]
    exact (jsTrim_eq_nil_iff s).2 hall

theorem sendMessage_spec_witness :
    sendMessage ['h', 'i'] = (some ['h', 'i'], []) ∧
    sendMessage [' ', ' '] = (none, [' ', ' ']) :=
  ⟨(sendMessage_spec ['h', 'i']).2.1 ⟨'h', by simp, by decide⟩,
   (sendMessage_spec [' ', ' ']).2.2 (by decide)⟩

/-! ## ChatView.vue: conversation persistence round trip -/

/-- A chat message as held in `ChatView.vue`'s `messages` array (the numeric
`id` field plays no role in persistence and is omitted). -/
structure Message where
  sender : String
  text : String
deriving DecidableEq

/-- A message in the backend conversation API's shape. -/
structure ApiMessage where
  role : String
  content : String
deriving DecidableEq

/-- The per-message mapping of `saveConversation` in `ChatView.vue`:
`role` is `"assistant"` for sender `"bot"` and `"user"` otherwise. -/
def saveMessage (m : Message) : ApiMessage :=
  { role := if m.sender = "bot" then "assistant" else "user", content := m.text }

/-- The per-message mapping of `loadConversation` in `ChatView.vue`:
`sender` is `"bot"` for role `"assistant"` and `"user"` otherwise. -/
def loadMessage (a : ApiMessage) : Message :=
  { sender := if a.role = "assistant" then "bot" else "user", text := a.content }

theorem load_save_id (m : Message) (h : m.sender = "user" ∨ m.sender = "bot") :
    loadMessage (saveMessage m) = m := by
  obtain ⟨s, t⟩ := m
  simp only at h
  rcases h with h | h <;> subst h <;> simp [saveMessage, loadMessage]

/-- C9: for conversations whose senders are all `"user"` or `"bot"`, saving and
then reloading reproduces exactly the original sequence of (sender, text)
pairs. -/
theorem conversation_roundtrip (msgs : List Message)
    (h : ∀ m ∈ msgs, m.sender = "user" ∨ m.sender = "bot") :
    (msgs.map saveMessage).map loadMessage = msgs := by
  rw [List.map_map]
  refine (List.map_congr_left ?_).trans (List.map_id msgs)
  intro m hm
  exact load_save_id m (h m hm)

theorem conversation_roundtrip_witness :
    (([⟨"user", "hello"⟩, ⟨"bot", "welcome"⟩] : List Message).map saveMessage).map
      loadMessage = [⟨"user", "hello"⟩, ⟨"bot", "welcome"⟩] :=
  conversation_roundtrip _ (by
    intro m hm
    simp only [List.mem_cons, List.not_mem_nil, or_false] at hm
    rcases hm with h | h <;> subst h <;> simp)

/-! ## MapDisplay.vue: the `mapUrl` computed property -/

/-- A latitude/longitude pair as it appears in the walking-route JSON; the
numeric values are kept in their textual form, which is how they are
interpolated into the URL. -/
structure LatLng where
  latitude : String
  longitude : String
deriving DecidableEq

/-- A step endpoint (`startLocation` / `endLocation`) in the route JSON. -/
structure Location where
  latLng : LatLng
deriving DecidableEq

/-- One step of a leg of a walking route. -/
structure Step where
  startLocation : Location
  endLocation : Location
deriving DecidableEq

/-- One leg of a walking route; `steps` may be absent in malformed data, which
JavaScript optional chaining treats as `undefined`. -/
structure Leg where
  steps : Option (List Step)
deriving DecidableEq

/-- One route of the walking-route JSON. -/
structure Route where
  legs : Option (List Leg)
deriving DecidableEq

/-- The walking-route JSON object delivered on the structured side channel. -/
structure RouteData where
  routes : Option (List Route)
deriving DecidableEq

/-- The step list reached by the optional chain
`routeData?.routes?.[0]?.legs?.[0]?.steps` in `MapDisplay.vue`; any missing
link yields the empty list (falsy `length`). -/
def stepsOf (rd : RouteData) : List Step :=
  match rd.routes with
  | some (r :: _) =>
    match r.legs with
    | some (l :: _) => l.steps.getD []
    | _ => []
  | _ => []

/-- The `mapUrl` computed property of `MapDisplay.vue`: empty when the Google
Maps API key is absent or the step list is missing/empty; otherwise a
walking-mode directions embed URL from the first step's start location to the
last step's end location. -/
def mapUrl (googleApiKey : Option String) (rd : RouteData) : String :=
  match googleApiKey, stepsOf rd with
  | some key, s :: rest =>
    let origin := s.startLocation.latLng
    let destination := (List.getLast (s :: rest) (List.cons_ne_nil s rest)).endLocation.latLng
    "https://www.google.com/maps/embed/v1/directions?key=" ++ key ++
      "&origin=" ++ origin.latitude ++ "," ++ origin.longitude ++
      "&destination=" ++ destination.latitude ++ "," ++ destination.longitude ++
      "&mode=walking"
  | _, _ => ""

/-- C10: `mapUrl` is total: with a missing API key or a missing/empty step list
it is the empty string (so the placeholder is rendered, `v-if="mapUrl"` being
false); with a key and a non-empty step list it is the walking-mode directions
URL whose origin is the first step's start location and whose destination is
the last step's end location. -/
theorem mapUrl_spec (googleApiKey : Option String) (rd : RouteData) :
    (googleApiKey = none → mapUrl googleApiKey rd = "") ∧
    (stepsOf rd = [] → mapUrl googleApiKey rd = "") ∧
    (∀ key s rest, googleApiKey = some key → stepsOf rd = s :: rest →
      mapUrl googleApiKey rd =
        "https://www.google.com/maps/embed/v1/directions?key=" ++ key ++
          "&origin=" ++ s.startLocation.latLng.latitude ++ "," ++
          s.startLocation.latLng.longitude ++
          "&destination=" ++
          (List.getLast (s :: rest) (List.cons_ne_nil s rest)).endLocation.latLng.latitude
          ++ "," ++
          (List.getLast (s :: rest) (List.cons_ne_nil s rest)).endLocation.latLng.longitude
          ++ "&mode=walking") := by
  refine ⟨?_, ?_, ?_⟩
  · intro h
    subst h
    rfl
  · intro h
    unfold mapUrl
    rw [h]
    cases googleApiKey <;> rfl
  · intro key s rest hk hs
    subst hk
    unfold mapUrl
    rw [hs]

/-- A concrete step used to evaluate the embedding. -/
def sampleStep : Step :=
  { startLocation := { latLng := { latitude := "48.8049", longitude := "2.1204" } },
    endLocation := { latLng := { latitude := "48.8066", longitude := "2.1232" } } }

/-- A concrete one-step route used to evaluate the embedding. -/
def sampleRoute : RouteData :=
  { routes := some [{ legs := some [{ steps := some [sampleStep] }] }] }

theorem mapUrl_spec_witness :
    mapUrl none sampleRoute = "" ∧
    mapUrl (some "K") { routes := none } = "" ∧
    mapUrl (some "K") sampleRoute =
      "https://www.google.com/maps/embed/v1/directions?key=K&origin=48.8049,2.1204&destination=48.8066,2.1232&mode=walking" := by
  refine ⟨(mapUrl_spec none sampleRoute).1 rfl,
          (mapUrl_spec (some "K") { routes := none }).2.1 rfl, ?_⟩
  have h := (mapUrl_spec (some "K") sampleRoute).2.2 "K" sampleStep [] rfl rfl
  rw [h]
  rfl

/-! ## ChatView.vue: SSE event handling in `handleNewMessage` -/

/-- A parsed server-sent event in the chat completion stream: its `object`
tag, the structured payload `data` (present on walking-route events), and the
conversational delta `choices[0].delta.content` (absent links of the optional
chain collapse to `none`). -/
structure SseEvent where
  object : String
  data : Option RouteData
  delta : Option String

/-- The view state touched by the SSE loop of `handleNewMessage` in
`ChatView.vue`: the streaming bot message's text and the map-related state. -/
structure StreamState where
  botText : String
  routeJson : Option RouteData
  isMapOpen : Bool
  selectedLegIndex : Nat

/-- Processing of one parsed SSE event in `handleNewMessage`: a
`custom.walking_route` event replaces the route data, opens the map and resets
the selected leg to 0; any other event appends its delta content (when
present and non-empty) to the bot message's text. -/
def processEvent (j : SseEvent) (st : StreamState) : StreamState :=
  if j.object = "custom.walking_route" then
    { st with routeJson := j.data, isMapOpen := true, selectedLegIndex := 0 }
  else
    match j.delta with
    | some d => if d ≠ "" then { st with botText := st.botText ++ d } else st
    | none => st

/-- C1: a `custom.walking_route` event only updates the structured side
channel (route data set, map opened, selected leg reset to 0) and leaves the
bot message's text unchanged; every other event only appends its delta content
to the bot text and leaves the route data, map visibility and selected leg
unchanged. -/
theorem processEvent_spec (j : SseEvent) (st : StreamState) :
    (j.object = "custom.walking_route" →
      processEvent j st =
        { st with routeJson := j.data, isMapOpen := true, selectedLegIndex := 0 } ∧
      (processEvent j st).botText = st.botText) ∧
    (j.object ≠ "custom.walking_route" →
      (processEvent j st).botText = st.botText ++ (j.delta.getD "") ∧
      (processEvent j st).routeJson = st.routeJson ∧
      (processEvent j st).isMapOpen = st.isMapOpen ∧
      (processEvent j st).selectedLegIndex = st.selectedLegIndex) := by
  constructor
  · intro h
    unfold processEvent
    rw [if_pos h]
    exact ⟨rfl, rfl⟩
  · intro h
    unfold processEvent
    rw [if_neg h]
    cases hd : j.delta with
    | none => simp
    | some d =>
      by_cases hde : d = ""
      · subst hde
        simp
      · simp [hde]

theorem processEvent_spec_witness :
    processEvent { object := "custom.walking_route", data := some sampleRoute, delta := none }
        { botText := "B", routeJson := none, isMapOpen := false, selectedLegIndex := 3 } =
      { botText := "B", routeJson := some sampleRoute, isMapOpen := true,
        selectedLegIndex := 0 } ∧
    (processEvent { object := "chat.completion.chunk", data := none, delta := some "Bonjour" }
        { botText := "B", routeJson := none, isMapOpen := false,
          selectedLegIndex := 3 }).botText = "B" ++ "Bonjour" :=
  ⟨((processEvent_spec
      { object := "custom.walking_route", data := some sampleRoute, delta := none }
      { botText := "B", routeJson := none, isMapOpen := false, selectedLegIndex := 3 }).1
      rfl).1,
   ((processEvent_spec
      { object := "chat.completion.chunk", data := none, delta := some "Bonjour" }
      { botText := "B", routeJson := none, isMapOpen := false, selectedLegIndex := 3 }).2
      (by decide)).1⟩

/-! ## The orchestration engine

The Python implementation of the Router, Decomposer, Execution Orchestrator
and Evidence Fusion Engine is not part of the sources; only its documentation
(`docs/TOOL_BASED_ROUTING.md`, `docs/ROUTING_COMPARISON.md`,
`docs/INTELLIGENT_ROUTING.md`) is.  The definitions below are therefore
modelled from the specification, following the dataclass shapes quoted in the
documentation. -/

/-- Execution strategies of a `RoutingDecision` (§3). -/
inductive Strategy where
  | DIRECT
  | DECOMPOSE
  | CLARIFY
deriving DecidableEq

/-- A `ToolRequirement` (§3): tool reference, purpose, priority, the query to
send to the tool, and the set of requirement IDs (indices) it depends on. -/
structure ToolRequirement where
  tool : String
  purpose : String
  priority : ℚ
  queryForTool : String
  dependencies : List Nat
deriving DecidableEq

/-- A `RoutingDecision` (§3): strategy, ordered set of tool requirements,
confidence and reasoning. -/
structure RoutingDecision where
  strategy : Strategy
  requiredTools : List ToolRequirement
  confidence : ℚ
  reasoning : String
deriving DecidableEq

/-- Modelled from the spec: the Router implementation is missing from the
sources; §4.1's analysis step is abstracted as the list of tools whose
capability matches an information need implied by the query, or `none` when
the query lacks the information needed to select tools confidently
(confidence below the fixed threshold), which is the `CLARIFY` condition. -/
structure QueryAnalysis where
  capabilities : Option (List String)
  confidence : ℚ

/-- The single tool requirement built for a capability matched by the query. -/
def mkRequirement (query : String) (tool : String) : ToolRequirement :=
  { tool := tool, purpose := "capability matched by the query", priority := 1,
    queryForTool := query, dependencies := [] }

/-- Modelled from the spec: `route(query, history) -> RoutingDecision` (§4.1).
Exactly one identified capability yields `DIRECT` with that single
requirement; two or more yield `DECOMPOSE`; an unconfident or empty analysis
yields `CLARIFY` with no plan. -/
def route (query : String) (a : QueryAnalysis) : RoutingDecision :=
  match a.capabilities with
  | some [c] =>
    { strategy := .DIRECT, requiredTools := [mkRequirement query c],
      confidence := a.confidence, reasoning := "one capability answers the query" }
  | some (c1 :: c2 :: cs) =>
    { strategy := .DECOMPOSE, requiredTools := (c1 :: c2 :: cs).map (mkRequirement query),
      confidence := a.confidence, reasoning := "multiple capabilities required" }
  | some [] =>
    { strategy := .CLARIFY, requiredTools := [],
      confidence := a.confidence, reasoning := "no capability identified" }
  | none =>
    { strategy := .CLARIFY, requiredTools := [],
      confidence := a.confidence, reasoning := "tools cannot be selected confidently" }

/-- C2: a query whose analysis identifies exactly one required capability is
routed `DIRECT` with exactly one tool requirement. -/
theorem route_single_capability_direct (query : String) (a : QueryAnalysis)
    (c : String) (h : a.capabilities = some [c]) :
    (route query a).strategy = Strategy.DIRECT ∧
    (route query a).requiredTools.length = 1 := by
  unfold route
  rw [h]
  exact ⟨rfl, rfl⟩

theorem route_single_capability_direct_witness :
    (route "What is the weather today?"
      { capabilities := some ["google_weather"], confidence := 9/10 }).strategy =
        Strategy.DIRECT ∧
    (route "What is the weather today?"
      { capabilities := some ["google_weather"], confidence := 9/10 }).requiredTools.length
        = 1 :=
  route_single_capability_direct "What is the weather today?"
    { capabilities := some ["google_weather"], confidence := 9/10 } "google_weather" rfl

/-- A `DecomposedQuery` as in the dataclass quoted in
`docs/ROUTING_COMPARISON.md`: sub-query text, purpose, priority, dependency
list (indices of other sub-queries), required sources, expected information. -/
structure DecomposedQuery where
  query : String
  purpose : String
  priority : ℚ
  dependencies : List Nat
  requiredSources : List String
  expectedInfo : String
deriving DecidableEq

/-- Modelled from the spec: the Decomposer implementation is missing from the
sources; §4.2 requires 2–6 sub-requirements with explicit index dependency
lists, and the decomposition prompt quoted in `docs/ROUTING_COMPARISON.md`
instructs the model to produce 2–5 sub-queries.  The validator enforces the
prompt's count bounds and that each dependency is the index of another
sub-requirement. -/
def validDecomposition (subs : List DecomposedQuery) : Bool :=
  decide (2 ≤ subs.length) && decide (subs.length ≤ 5) &&
    subs.enum.all (fun p =>
      p.2.dependencies.all (fun d => decide (d < subs.length) && decide (d ≠ p.1)))

/-- Modelled from the spec: `decompose` returns a plan only when the raw
language-model output passes validation; malformed output is rejected
(`none`, triggering regeneration or degradation per §4.2). -/
def decompose (raw : List DecomposedQuery) : Option (List DecomposedQuery) :=
  if validDecomposition raw then some raw else none

/-- C6: every plan the Decomposer produces has between 2 and 6
sub-requirements inclusive (the validator in fact enforces the prompt's 2–5),
and every dependency entry is the index of another sub-requirement of the
plan. -/
theorem decompose_bounds (raw plan : List DecomposedQuery)
    (h : decompose raw = some plan) :
    2 ≤ plan.length ∧ plan.length ≤ 6 ∧
    ∀ p ∈ plan.enum, ∀ d ∈ p.2.dependencies, d < plan.length ∧ d ≠ p.1 := by
  unfold decompose at h
  by_cases hv : validDecomposition raw = true
  · rw [if_pos hv] at h
    cases h
    unfold validDecomposition at hv
    simp only [Bool.and_eq_true, decide_eq_true_eq, List.all_eq_true] at hv
    obtain ⟨⟨h2, h5⟩, hdeps⟩ := hv
    refine ⟨h2, le_trans h5 (by norm_num), ?_⟩
    intro p hp d hd
    have := hdeps p hp d hd
    simp only [Bool.and_eq_true, decide_eq_true_eq] at this
    exact this
  · rw [if_neg hv] at h
    cases h

/-- A concrete two-step decomposition used to evaluate the embedding. -/
def samplePlan : List DecomposedQuery :=
  [{ query := "Where is the Hall of Mirrors?", purpose := "locate",
     priority := 1, dependencies := [], requiredSources := ["official_kb"],
     expectedInfo := "location of the Hall of Mirrors" },
   { query := "Walking route to the Hall of Mirrors", purpose := "navigate",
     priority := 4/5, dependencies := [0], requiredSources := ["google_maps"],
     expectedInfo := "walking directions" }]

theorem decompose_bounds_witness :
    2 ≤ samplePlan.length ∧ samplePlan.length ≤ 6 ∧
    ∀ p ∈ samplePlan.enum, ∀ d ∈ p.2.dependencies, d < samplePlan.length ∧ d ≠ p.1 :=
  decompose_bounds samplePlan samplePlan (by rfl)

/-! ## Evidence Fusion Engine (§4.4) -/

/-- Authority tiers of an `EvidenceItem` (§3): official KB > live API >
general/document-derived text. -/
inductive AuthorityTier where
  | official
  | liveApi
  | general
deriving DecidableEq

/-- An `EvidenceItem` (§3): source identifier, authority tier, raw content and
relevance (similarity) score. -/
structure EvidenceItem where
  sourceId : String
  tier : AuthorityTier
  content : String
  similarity : ℚ
deriving DecidableEq

/-- Modelled from the spec: the Fusion Engine implementation is missing from
the sources; §4.4 requires the authority weight of the official corpus to be
strictly higher than that of general or document-derived passages
(e.g. 1.0 vs 0.7). -/
def authorityWeight : AuthorityTier → ℚ
  | .official => 1
  | .liveApi => 7/10
  | .general => 7/10

/-- Combined score of an evidence item: `similarity * authority_weight`
(§4.4). -/
def combinedScore (e : EvidenceItem) : ℚ :=
  e.similarity * authorityWeight e.tier

/-- Modelled from the spec: the near-duplicate test ("content similarity
exceeds a fixed threshold") is instantiated with content equality. -/
def nearDup (a b : EvidenceItem) : Bool :=
  a.content = b.content

/-- Keep the highest-scored copy among a group of near-duplicates. -/
def bestCopy (e : EvidenceItem) (dups : List EvidenceItem) : EvidenceItem :=
  dups.foldl (fun best x => if combinedScore best < combinedScore x then x else best) e

/-- Modelled from the spec: deduplication (§4.4) — near-duplicate passages
keep only the highest-scored copy. -/
def dedup : List EvidenceItem → List EvidenceItem
  | [] => []
  | e :: rest =>
    bestCopy e (rest.filter (nearDup e)) ::
      dedup (rest.filter (fun x => ! nearDup e x))
termination_by l => l.length
decreasing_by
  simp only [List.length_cons]
  exact Nat.lt_succ_of_le (List.length_filter_le _ rest)

/-- Insertion into a list kept in descending combined-score order. -/
def insertDesc (e : EvidenceItem) : List EvidenceItem → List EvidenceItem
  | [] => [e]
  | x :: xs =>
    if combinedScore x ≤ combinedScore e then e :: x :: xs else x :: insertDesc e xs

/-- Sort descending by combined score (§4.4). -/
def sortDesc : List EvidenceItem → List EvidenceItem
  | [] => []
  | e :: xs => insertDesc e (sortDesc xs)

/-- Modelled from the spec: `fuse` (§4.4) — deduplicate, sort descending by
combined score, and discard items below the minimum relevance floor (the floor
is a configurable parameter). -/
def fuse (floor : ℚ) (items : List EvidenceItem) : List EvidenceItem :=
  (sortDesc (dedup items)).filter (fun e => decide (floor ≤ combinedScore e))

/-- C4: the combined score is similarity times authority weight, the official
corpus weighs strictly more than the other tiers, and of two evidence items
with equal similarity but different authority tiers that both pass a positive
relevance floor, fusion ranks the official-corpus item strictly first,
whichever order the pair arrives in. -/
theorem fusion_authority_ordering (a b : EvidenceItem) (floor : ℚ)
    (ha : a.tier = AuthorityTier.official) (hb : b.tier ≠ AuthorityTier.official)
    (hsim : a.similarity = b.similarity) (hc : a.content ≠ b.content)
    (hfloor : 0 < floor) (hpass : floor ≤ combinedScore b) :
    (∀ e : EvidenceItem, combinedScore e = e.similarity * authorityWeight e.tier) ∧
    (∀ t, t ≠ AuthorityTier.official → authorityWeight t < authorityWeight .official) ∧
    fuse floor [a, b] = [a, b] ∧ fuse floor [b, a] = [a, b] := by
  have hwb : authorityWeight b.tier = 7/10 := by
    cases htb : b.tier with
    | official => exact absurd htb hb
    | liveApi => rfl
    | general => rfl
  have hsb : combinedScore b = b.similarity * (7/10) := by
    rw [combinedScore, hwb]
  have hsa : combinedScore a = b.similarity := by
    rw [combinedScore, ha, hsim]
    simp [authorityWeight]
  have hpos : 0 < b.similarity := by
    by_contra hneg
    push_neg at hneg
    have : combinedScore b ≤ 0 := by
      rw [hsb]
      have : (0 : ℚ) < 7/10 := by norm_num
      nlinarith
    linarith
  have hlt : combinedScore b < combinedScore a := by
    rw [hsa, hsb]
    nlinarith
  have hpassa : floor ≤ combinedScore a := le_of_lt (lt_of_le_of_lt hpass hlt)
  have hnd : nearDup a b = false := by
    unfold nearDup
    simpa using hc
  have hnd2 : nearDup b a = false := by
    unfold nearDup
    simpa using fun h => hc h.symm
  refine ⟨fun e => rfl, ?_, ?_, ?_⟩
  · intro t ht
    cases t with
    | official => exact absurd rfl ht
    | liveApi => norm_num [authorityWeight]
    | general => norm_num [authorityWeight]
  · have hd : dedup [a, b] = [a, b] := by
      unfold dedup
      rw [show List.filter (nearDup a) [b] = [] by simp [List.filter, hnd]]
      rw [show List.filter (fun x => ! nearDup a x) [b] = [b] by simp [List.filter, hnd]]
      unfold dedup
      simp [bestCopy]
      simp [dedup]
    have hst : sortDesc [a, b] = [a, b] := by
      unfold sortDesc
      unfold sortDesc
      unfold sortDesc
      simp only [insertDesc]
      rw [if_pos (le_of_lt hlt)]
    unfold fuse
    rw [hd, hst]
    have d1 : decide (floor ≤ combinedScore a) = true := decide_eq_true hpassa
    have d2 : decide (floor ≤ combinedScore b) = true := decide_eq_true hpass
    simp only [List.filter, d1, d2]
  · have hd : dedup [b, a] = [b, a] := by
      unfold dedup
      rw [show List.filter (nearDup b) [a] = [] by simp [List.filter, hnd2]]
      rw [show List.filter (fun x => ! nearDup b x) [a] = [a] by simp [List.filter, hnd2]]
      unfold dedup
      simp [bestCopy]
      simp [dedup]
    have hst : sortDesc [b, a] = [a, b] := by
      unfold sortDesc
      unfold sortDesc
      unfold sortDesc
      simp only [insertDesc]
      rw [if_neg (not_le.2 hlt)]
    unfold fuse
    rw [hd, hst]
    have d1 : decide (floor ≤ combinedScore a) = true := decide_eq_true hpassa
    have d2 : decide (floor ≤ combinedScore b) = true := decide_eq_true hpass
    simp only [List.filter, d1, d2]

/-- A concrete official-corpus evidence item. -/
def kbItem : EvidenceItem :=
  { sourceId := "official_kb", tier := .official,
    content := "The Hall of Mirrors is in the central wing.", similarity := 4/5 }

/-- A concrete document-derived evidence item with the same similarity. -/
def docItem : EvidenceItem :=
  { sourceId := "pdf_corpus", tier := .general,
    content := "The Hall of Mirrors connects the royal apartments.", similarity := 4/5 }

theorem fusion_authority_ordering_witness :
    fuse (1/4) [docItem, kbItem] = [kbItem, docItem] :=
  (fusion_authority_ordering kbItem docItem (1/4) rfl (by decide) rfl (by decide)
    (by norm_num) (by norm_num [combinedScore, authorityWeight, docItem])).2.2.2

/-- C5: fusion is a deterministic function of the tool-result set: an
unchanged input yields identical ranked evidence and identical deduplication
output. -/
theorem fusion_deterministic (floor : ℚ) (r1 r2 : List EvidenceItem)
    (h : r1 = r2) :
    fuse floor r1 = fuse floor r2 ∧ dedup r1 = dedup r2 := by
  subst h
  exact ⟨rfl, rfl⟩

theorem fusion_deterministic_witness :
    fuse (1/4) [kbItem, docItem] = fuse (1/4) [kbItem, docItem] ∧
    dedup [kbItem, docItem] = dedup [kbItem, docItem] :=
  fusion_deterministic (1/4) [kbItem, docItem] [kbItem, docItem] rfl

/-! ## Execution Orchestrator (§4.3): waves and partial failure -/

/-- The behaviour of one tool node in a wave: its requirement id, how long the
call takes, and its response (`none` is a tool error). -/
structure ToolNode where
  id : Nat
  latencyMs : ℚ
  response : Option String
deriving DecidableEq

/-- Settled outcome of one node of a wave: success, timeout, or failure. -/
inductive ToolOutcome where
  | ok (content : String)
  | timedOut
  | failed
deriving DecidableEq

/-- Whether an outcome is a success. -/
def ToolOutcome.isOk : ToolOutcome → Bool
  | .ok _ => true
  | _ => false

/-- Modelled from the spec: the Orchestrator implementation is missing from
the sources; per §4.3 a node whose call exceeds the per-tool timeout settles
as timed out instead of being awaited further, and otherwise settles as
success or failure according to its response. -/
def settleNode (timeoutMs : ℚ) (n : ToolNode) : ToolOutcome :=
  if timeoutMs < n.latencyMs then .timedOut
  else
    match n.response with
    | some c => .ok c
    | none => .failed

/-- Modelled from the spec: one execution wave (§4.3, §5) — every member
settles (success, failure, or timeout) and the wave's result attributes each
settled outcome to its requirement id. -/
def runWave (timeoutMs : ℚ) (nodes : List ToolNode) : List (Nat × ToolOutcome) :=
  nodes.map (fun n => (n.id, settleNode timeoutMs n))

/-- Number of degraded (non-success) outcomes in a wave result. -/
def degradedCount (rs : List (Nat × ToolOutcome)) : Nat :=
  rs.countP (fun p => ! p.2.isOk)

/-- Modelled from the spec: synthesis flags reduced confidence for degraded
nodes (§4.3, §7); each degraded node multiplies the base confidence by a
penalty factor 4/5 < 1. -/
def synthesisConfidence (base : ℚ) (rs : List (Nat × ToolOutcome)) : ℚ :=
  base * (4/5) ^ degradedCount rs

theorem countP_set_of_all_false {α : Type} (q : α → Bool) :
    ∀ (l : List α) (i : Nat), i < l.length → (∀ x ∈ l, q x = false) →
      ∀ b, q b = true → (l.set i b).countP q = 1 := by
  intro l
  induction l with
  | nil => intro i hi; simp at hi
  | cons x xs ih =>
    intro i hi hall b hb
    cases i with
    | zero =>
      simp only [List.set]
      rw [List.countP_cons]
      have hxs : xs.countP q = 0 := by
        rw [List.countP_eq_zero]
        intro y hy
        simp [hall y (List.mem_cons_of_mem x hy)]
      simp [hxs, hb]
    | succ j =>
      simp only [List.set]
      rw [List.countP_cons]
      have hj : j < xs.length := by simpa using hi
      have := ih j hj (fun y hy => hall y (List.mem_cons_of_mem x hy)) b hb
      simp [this, hall x (List.mem_cons_self x xs)]

/-- C7: if in a wave where every node would succeed one node instead times
out, the wave still completes — it settles every node, and every other node's
attributed result is identical to the all-success run — while the timed-out
node is marked timed out, and the synthesized confidence is strictly lower
than in the all-success run. -/
theorem wave_partial_failure (timeoutMs base : ℚ) (nodes : List ToolNode)
    (i : Nat) (hi : i < nodes.length) (slow : ℚ)
    (hall : ∀ n ∈ nodes, (settleNode timeoutMs n).isOk = true)
    (hslow : timeoutMs < slow) (hbase : 0 < base) :
    (runWave timeoutMs (nodes.set i { nodes[i] with latencyMs := slow })).length
        = nodes.length ∧
    (∀ j, ∀ hj : j < nodes.length, j ≠ i →
      (runWave timeoutMs (nodes.set i { nodes[i] with latencyMs := slow })).get
          ⟨j, by simpa [runWave] using hj⟩ =
        (runWave timeoutMs nodes).get ⟨j, by simpa [runWave] using hj⟩) ∧
    (runWave timeoutMs (nodes.set i { nodes[i] with latencyMs := slow })).get
        ⟨i, by simpa [runWave] using hi⟩ = (nodes[i].id, ToolOutcome.timedOut) ∧
    synthesisConfidence base
        (runWave timeoutMs (nodes.set i { nodes[i] with latencyMs := slow })) <
      synthesisConfidence base (runWave timeoutMs nodes) := by
  set n' : ToolNode := { nodes[i] with latencyMs := slow } with hn'
  have hsettle : settleNode timeoutMs n' = ToolOutcome.timedOut := by
    unfold settleNode
    rw [if_pos]
    simpa [hn'] using hslow
  refine ⟨by simp [runWave], ?_, ?_, ?_⟩
  · intro j hj hne
    have hj' : j < (nodes.set i n').length := by simpa using hj
    simp only [runWave, List.get_eq_getElem, List.getElem_map]
    rw [List.getElem_set_ne (fun h => hne h.symm)]
  · simp only [runWave, List.get_eq_getElem, List.getElem_map]
    rw [List.getElem_set_self (by simpa using hi)]
    rw [hsettle]
  · have hcount0 : degradedCount (runWave timeoutMs nodes) = 0 := by
      unfold degradedCount
      rw [List.countP_eq_zero]
      intro p hp
      simp only [runWave, List.mem_map] at hp
      obtain ⟨n, hn, rfl⟩ := hp
      simp [hall n hn]
    have hcount1 : degradedCount
        (runWave timeoutMs (nodes.set i n')) = 1 := by
      unfold degradedCount
      have hmap : runWave timeoutMs (nodes.set i n') =
          (runWave timeoutMs nodes).set i (n'.id, settleNode timeoutMs n') := by
        simp [runWave, List.map_set]
      rw [hmap]
      apply countP_set_of_all_false
      · simpa [runWave] using hi
      · intro p hp
        simp only [runWave, List.mem_map] at hp
        obtain ⟨n, hn, rfl⟩ := hp
        simp [hall n hn]
      · rw [hsettle]
        rfl
    unfold synthesisConfidence
    rw [hcount0, hcount1]
    simp only [pow_zero, pow_one, mul_one]
    nlinarith

/-- Two concrete tool nodes whose calls both return within the timeout. -/
def fastNodes : List ToolNode :=
  [{ id := 0, latencyMs := 1200, response := some "kb passage" },
   { id := 1, latencyMs := 800, response := some "sunny, 18 C" }]

theorem wave_partial_failure_witness :
    (runWave 10000 (fastNodes.set 1 { fastNodes[1] with latencyMs := 25000 })).length
        = fastNodes.length ∧
    (∀ j, ∀ hj : j < fastNodes.length, j ≠ 1 →
      (runWave 10000 (fastNodes.set 1 { fastNodes[1] with latencyMs := 25000 })).get
          ⟨j, by simpa [runWave] using hj⟩ =
        (runWave 10000 fastNodes).get ⟨j, by simpa [runWave] using hj⟩) ∧
    (runWave 10000 (fastNodes.set 1 { fastNodes[1] with latencyMs := 25000 })).get
        ⟨1, by simp [runWave, fastNodes]⟩ = (fastNodes[1].id, ToolOutcome.timedOut) ∧
    synthesisConfidence 1
        (runWave 10000 (fastNodes.set 1 { fastNodes[1] with latencyMs := 25000 })) <
      synthesisConfidence 1 (runWave 10000 fastNodes) :=
  wave_partial_failure 10000 1 fastNodes 1 (by simp [fastNodes]) 25000
    (by decide) (by norm_num) (by norm_num)

/-! ## Decomposition plans: dependency DAG, cycle detection, execution -/

/-- The dependency list of requirement `i` of a plan (empty when `i` is out of
range). -/
def depsAt (plan : List ToolRequirement) (i : Nat) : List Nat :=
  (plan[i]?.map ToolRequirement.dependencies).getD []

/-- Modelled from the spec: a requirement is eligible for the next wave when
it has not been scheduled yet and all of its dependencies have (§4.3). -/
def ready (plan : List ToolRequirement) (done : List Nat) (i : Nat) : Bool :=
  ! decide (i ∈ done) && (depsAt plan i).all (fun d => decide (d ∈ done))

/-- Requirements eligible for the next execution wave. -/
def nextWave (plan : List ToolRequirement) (done : List Nat) : List Nat :=
  (List.range plan.length).filter (ready plan done)

/-- Whether every requirement of the plan has been scheduled. -/
def allDone (plan : List ToolRequirement) (done : List Nat) : Bool :=
  (List.range plan.length).all (fun i => decide (i ∈ done))

/-- Modelled from the spec: Kahn-style topological sorting of the requirement
graph into execution waves (§4.3, §9); when no unscheduled requirement has all
dependencies satisfied, the remainder contains a cycle and scheduling fails. -/
def schedule (plan : List ToolRequirement) : Nat → List Nat → Option (List (List Nat))
  | 0, done => if allDone plan done then some [] else none
  | fuel + 1, done =>
    if allDone plan done then some []
    else
      if (nextWave plan done).isEmpty then none
      else
        (schedule plan fuel (done ++ nextWave plan done)).map
          (fun ws => nextWave plan done :: ws)

/-- The wave decomposition of a plan, or `none` for a cyclic plan. -/
def topoWaves (plan : List ToolRequirement) : Option (List (List Nat)) :=
  schedule plan plan.length []

/-- Modelled from the spec: executing one requirement through the uniform tool
contract (§6) is abstracted as recording its tool and query. -/
def execUnit (plan : List ToolRequirement) (i : Nat) : Nat × String :=
  (i, (plan[i]?.map (fun r => r.tool ++ ": " ++ r.queryForTool)).getD "")

/-- Execute the scheduled waves in order. -/
def executeWaves (plan : List ToolRequirement) (ws : List (List Nat)) :
    List (Nat × String) :=
  (ws.map (fun w => w.map (execUnit plan))).flatten

/-- Modelled from the spec: the plan pipeline — cycle detection runs first and
a plan whose dependency graph cannot be layered is rejected with an error;
only validated plans reach `executeWaves`, so a rejected plan executes no
step. -/
def processPlan (plan : List ToolRequirement) : Except String (List (Nat × String)) :=
  match topoWaves plan with
  | none => Except.error "cyclic dependency plan rejected"
  | some ws => Except.ok (executeWaves plan ws)

/-- A layered witness of acyclicity: every requirement occurs in some wave and
every dependency of a wave-`k` requirement occurs in a strictly earlier
wave. -/
def ValidWaves (plan : List ToolRequirement) (ws : List (List Nat)) : Prop :=
  (∀ i, i < plan.length → i ∈ ws.flatten) ∧
  ∀ k, ∀ hk : k < ws.length, ∀ i ∈ ws[k], i < plan.length ∧
    ∀ d ∈ depsAt plan i, d ∈ (ws.take k).flatten

/-- The requirement dependency graph admits a topological layering — the
standard characterisation of acyclicity of a finite dependency graph. -/
def Acyclic (plan : List ToolRequirement) : Prop :=
  ∃ ws, ValidWaves plan ws

/-- An explicit dependency cycle in a plan: a non-empty list of in-range
requirement indices, each depending on the next, the last depending on the
first. -/
structure IsDepCycle (plan : List ToolRequirement) (c : List Nat) : Prop where
  nonempty : c ≠ []
  inRange : ∀ i ∈ c, i < plan.length
  chain : List.Chain' (fun i j => j ∈ depsAt plan i) c
  closes : c.head nonempty ∈ depsAt plan (c.getLast nonempty)

theorem cycle_succ {plan : List ToolRequirement} {c : List Nat}
    (hc : IsDepCycle plan c) : ∀ i ∈ c, ∃ j ∈ c, j ∈ depsAt plan i := by
  intro i hi
  obtain ⟨⟨t, ht⟩, rfl⟩ := List.mem_iff_get.1 hi
  by_cases hlt : t + 1 < c.length
  · refine ⟨c.get ⟨t + 1, hlt⟩, List.get_mem c (t + 1) hlt, ?_⟩
    exact List.chain'_iff_get.1 hc.chain t (by omega)
  · have hlast : c.get ⟨t, ht⟩ = c.getLast hc.nonempty := by
      rw [List.getLast_eq_getElem]
      simp only [List.get_eq_getElem]
      congr 1
      omega
    refine ⟨c.head hc.nonempty, List.head_mem hc.nonempty, ?_⟩
    rw [hlast]
    exact hc.closes

theorem schedule_sound (plan : List ToolRequirement) :
    ∀ fuel done ws, schedule plan fuel done = some ws →
      (∀ i, i < plan.length → i ∈ done ∨ i ∈ ws.flatten) ∧
      ∀ k, ∀ hk : k < ws.length, ∀ i ∈ ws[k], i < plan.length ∧
        ∀ d ∈ depsAt plan i, d ∈ done ∨ d ∈ (ws.take k).flatten := by
  intro fuel
  induction fuel with
  | zero =>
    intro done ws h
    rw [schedule] at h
    by_cases hd : allDone plan done = true
    · rw [if_pos hd] at h
      cases h
      refine ⟨?_, ?_⟩
      · intro i hi
        exact Or.inl (by simpa using List.all_eq_true.1 hd i (List.mem_range.2 hi))
      · intro k hk
        simp at hk
    · rw [if_neg hd] at h
      cases h
  | succ fuel ih =>
    intro done ws h
    rw [schedule] at h
    by_cases hd : allDone plan done = true
    · rw [if_pos hd] at h
      cases h
      refine ⟨?_, ?_⟩
      · intro i hi
        exact Or.inl (by simpa using List.all_eq_true.1 hd i (List.mem_range.2 hi))
      · intro k hk
        simp at hk
    · rw [if_neg hd] at h
      by_cases hw : (nextWave plan done).isEmpty = true
      · rw [if_pos hw] at h
        cases h
      · rw [if_neg hw] at h
        obtain ⟨ws', hws', rfl⟩ := Option.map_eq_some'.1 h
        obtain ⟨hcov, hwaves⟩ := ih (done ++ nextWave plan done) ws' hws'
        refine ⟨?_, ?_⟩
        · intro i hi
          rcases hcov i hi with hmem | hmem
          · rcases List.mem_append.1 hmem with h1 | h1
            · exact Or.inl h1
            · exact Or.inr (by rw [List.flatten_cons]; exact List.mem_append.2 (Or.inl h1))
          · exact Or.inr (by rw [List.flatten_cons]; exact List.mem_append.2 (Or.inr hmem))
        · intro k hk i hi
          cases k with
          | zero =>
            simp only [List.getElem_cons_zero] at hi
            have hmem := List.mem_filter.1 hi
            have hrange : i < plan.length := List.mem_range.1 hmem.1
            have hready := hmem.2
            unfold ready at hready
            simp only [Bool.and_eq_true, Bool.not_eq_true', decide_eq_false_iff_not,
              List.all_eq_true, decide_eq_true_eq] at hready
            exact ⟨hrange, fun d hd2 => Or.inl (hready.2 d hd2)⟩
          | succ k =>
            simp only [List.getElem_cons_succ] at hi
            have hk' : k < ws'.length := by simpa using hk
            obtain ⟨hrange, hdeps⟩ := hwaves k hk' i hi
            refine ⟨hrange, ?_⟩
            intro d hd2
            rcases hdeps d hd2 with h1 | h1
            · rcases List.mem_append.1 h1 with h2 | h2
              · exact Or.inl h2
              · refine Or.inr ?_
                rw [List.take_succ_cons, List.flatten_cons]
                exact List.mem_append.2 (Or.inl h2)
            · refine Or.inr ?_
              rw [List.take_succ_cons, List.flatten_cons]
              exact List.mem_append.2 (Or.inr h1)

theorem topoWaves_valid (plan : List ToolRequirement) (ws : List (List Nat))
    (h : topoWaves plan = some ws) : ValidWaves plan ws := by
  obtain ⟨hcov, hwaves⟩ := schedule_sound plan plan.length [] ws h
  refine ⟨?_, ?_⟩
  · intro i hi
    rcases hcov i hi with h1 | h1
    · simp at h1
    · exact h1
  · intro k hk i hi
    obtain ⟨hrange, hdeps⟩ := hwaves k hk i hi
    refine ⟨hrange, ?_⟩
    intro d hd
    rcases hdeps d hd with h1 | h1
    · simp at h1
    · exact h1

theorem cycle_no_valid_waves {plan : List ToolRequirement} {c : List Nat}
    (hc : IsDepCycle plan c) : ¬ Acyclic plan := by
  rintro ⟨ws, hcov, hwaves⟩
  have main : ∀ k, ∀ i ∈ c, i ∉ (ws.take k).flatten := by
    intro k
    induction k with
    | zero =>
      intro i hi hmem
      simp at hmem
    | succ k ihk =>
      intro i hi hmem
      by_cases hk : k < ws.length
      · rw [List.take_succ, List.flatten_append] at hmem
        rcases List.mem_append.1 hmem with h1 | h1
        · exact ihk i hi h1
        · rw [List.getElem?_eq_getElem hk] at h1
          simp only [Option.toList_some, List.flatten_cons, List.flatten_nil,
            List.append_nil] at h1
          obtain ⟨j, hj, hjd⟩ := cycle_succ hc i hi
          obtain ⟨_, hdeps⟩ := hwaves k hk i h1
          exact ihk j hj (hdeps j hjd)
      · push_neg at hk
        have h1 : ws.take (k + 1) = ws := List.take_of_length_le (by omega)
        have h2 : ws.take k = ws := List.take_of_length_le hk
        exact ihk i hi (by rw [h2, ← h1]; exact hmem)
  have hhead : c.head hc.nonempty ∈ c := List.head_mem hc.nonempty
  have hcovered := hcov _ (hc.inRange _ hhead)
  have hnot := main ws.length _ hhead
  rw [List.take_length] at hnot
  exact hnot hcovered

/-- C3: the dependency graph of every plan that reaches execution is acyclic
(it admits the topological layering produced by the scheduler), and every
candidate plan containing a dependency cycle is rejected with an error before
any execution step runs (`executeWaves` is reached only on a successfully
layered plan). -/
theorem decomposition_cycle_rejected (plan : List ToolRequirement) :
    (∀ res, processPlan plan = Except.ok res → Acyclic plan) ∧
    (∀ c, IsDepCycle plan c →
      processPlan plan = Except.error "cyclic dependency plan rejected") := by
  constructor
  · intro res h
    unfold processPlan at h
    cases htw : topoWaves plan with
    | none =>
      rw [htw] at h
      cases h
    | some ws => exact ⟨ws, topoWaves_valid plan ws htw⟩
  · intro c hc
    unfold processPlan
    cases htw : topoWaves plan with
    | none => rfl
    | some ws => exact absurd ⟨ws, topoWaves_valid plan ws htw⟩ (cycle_no_valid_waves hc)

/-- A concrete two-requirement plan whose requirements depend on each other. -/
def cyclicPlan : List ToolRequirement :=
  [{ tool := "knowledge_base", purpose := "locate the hall",
     priority := 1, queryForTool := "where is it", dependencies := [1] },
   { tool := "google_maps", purpose := "navigate there",
     priority := 1, queryForTool := "route to it", dependencies := [0] }]

theorem decomposition_cycle_rejected_witness :
    processPlan cyclicPlan = Except.error "cyclic dependency plan rejected" :=
  (decomposition_cycle_rejected cyclicPlan).2 [0, 1]
    ⟨by decide, by decide, by rw [List.chain'_pair]; decide, by decide⟩

end Versailles
